import Mathlib

/-!
Shallow embedding of `src/main.rs` (the `profile-borsh` repository): the
wasm stack-map data model (`MachineValue`, `MachineState`, `MachineStateDiff`,
`FunctionStateMap`, `ModuleStateMap`, `ExceptionTable`, `CacheImage`) together
with its borsh binary codec, and theorems checking the specification's claims
against it.

Conventions of the embedding:
* a byte is a `Nat` (every encoder emits values `< 256`; decoders are total on
  arbitrary `Nat` lists);
* Rust `usize` is serialized by this code's borsh as a `u64`: 8 bytes,
  little-endian (the source casts `usize` to `u64` explicitly where it matters,
  and `CacheImage::deserialize` reads `func_import_count` as `u64`);
* a `Vec<T>` / slice is a `u32` little-endian length prefix followed by the
  element encodings in order;
* a `BTreeMap` is modelled by its ascending-key iteration: a `List` of
  key/value pairs; its borsh encoding is the same length-prefixed pair list;
* decoders take the input byte list and return `Except DecodeErr (value × rest)`
  where `rest` is the unconsumed suffix, mirroring borsh's
  `deserialize(buf: &mut &[u8])`.
-/

/-- Decode-time failures of the embedded codec: `truncated` models the
`io::Error` borsh returns when the buffer ends mid-field, `unexpectedVariant`
models the `InvalidInput "Unexpected variant"` error of the hand-written
`MachineValue` decoder and of derived enum decoders, and `diffChainCorrupt` is
the corruption error of the spec-modelled reconstruction algorithm. -/
inductive DecodeErr where
  | truncated
  | unexpectedVariant
  | diffChainCorrupt
deriving DecidableEq, Repr

/-- Little-endian encoding of `n` into `w` bytes (low byte first), as borsh
writes fixed-width integers. -/
def encLE : Nat → Nat → List Nat
  | 0, _ => []
  | w + 1, n => n % 256 :: encLE w (n / 256)

/-- Read `w` little-endian bytes as a fixed-width integer, as borsh does. -/
def decLE : Nat → List Nat → Except DecodeErr (Nat × List Nat)
  | 0, bs => .ok (0, bs)
  | _ + 1, [] => .error .truncated
  | w + 1, b :: bs => (decLE w bs).map fun p => (b + 256 * p.1, p.2)

/-- Borsh `u32` (little-endian, 4 bytes): the length prefix of sequences. -/
def encU32 (n : Nat) : List Nat := encLE 4 n

/-- Borsh `u64` (little-endian, 8 bytes): the encoding of `u64` and `usize`. -/
def encU64 (n : Nat) : List Nat := encLE 8 n

/-- Borsh `i32`: the two's-complement bit pattern, 4 bytes little-endian. -/
def encI32 (i : Int) : List Nat := encLE 4 (i % (2 ^ 32)).toNat

/-- Decode a borsh `i32`: read 4 little-endian bytes and re-sign the result. -/
def decI32 (bs : List Nat) : Except DecodeErr (Int × List Nat) :=
  (decLE 4 bs).map fun p =>
    (if p.1 < 2 ^ 31 then (p.1 : Int) else (p.1 : Int) - 2 ^ 32, p.2)

/-- Borsh `Option<T>`: one tag byte (0 = `None`, 1 = `Some`) then the payload. -/
def encOpt {α : Type} (f : α → List Nat) : Option α → List Nat
  | none => [0]
  | some x => 1 :: f x

/-- Decode a borsh `Option<T>`; any tag byte other than 0 or 1 is an error. -/
def decOpt {α : Type} (f : List Nat → Except DecodeErr (α × List Nat)) :
    List Nat → Except DecodeErr (Option α × List Nat)
  | [] => .error .truncated
  | b :: bs =>
    if b = 0 then .ok (none, bs)
    else if b = 1 then (f bs).map fun p => (some p.1, p.2)
    else .error .unexpectedVariant

/-- Borsh sequence (`Vec<T>`, slice, map iteration): `u32` length prefix, then
the element encodings back to back. -/
def encSeq {α : Type} (f : α → List Nat) (xs : List α) : List Nat :=
  encU32 xs.length ++ (xs.map f).flatten

/-- Decode exactly `n` consecutive elements, threading the unconsumed rest. -/
def decCount {α : Type} (f : List Nat → Except DecodeErr (α × List Nat)) :
    Nat → List Nat → Except DecodeErr (List α × List Nat)
  | 0, bs => .ok ([], bs)
  | n + 1, bs => do
    let (x, r1) ← f bs
    let (xs, r2) ← decCount f n r1
    .ok (x :: xs, r2)

/-- Decode a borsh sequence: read the `u32` count, then that many elements. -/
def decSeq {α : Type} (f : List Nat → Except DecodeErr (α × List Nat))
    (bs : List Nat) : Except DecodeErr (List α × List Nat) := do
  let (n, r) ← decLE 4 bs
  decCount f n r

/-- Borsh `Vec<u8>`: `u32` length prefix followed by the raw bytes. -/
def encBytes (bs : List Nat) : List Nat := encU32 bs.length ++ bs

/-- Decode a borsh `Vec<u8>`: read the count, then take that many raw bytes. -/
def decBytes (bs : List Nat) : Except DecodeErr (List Nat × List Nat) := do
  let (n, r) ← decLE 4 bs
  if n ≤ r.length then .ok (r.take n, r.drop n) else .error .truncated

/-- Register index (`RegisterIndex(pub usize)` in the source): an opaque small
integer, compared by value. -/
structure RegisterIndex where
  val : Nat
deriving DecidableEq, Repr

/-- Storage location of one abstract value (`enum MachineValue` in the source).
`TwoHalves` boxes a pair of `MachineValue` in the source; the box is
transparent to borsh. -/
inductive MachineValue where
  | Undefined
  | Vmctx
  | VmctxDeref (v : List Nat)
  | PreserveRegister (r : RegisterIndex)
  | CopyStackBPRelative (i : Int)
  | ExplicitShadow
  | WasmStack (u : Nat)
  | WasmLocal (u : Nat)
  | TwoHalves (a b : MachineValue)
deriving DecidableEq, Repr

/-- Wasm abstract value (`enum WasmAbstractValue` in the source). -/
inductive WasmAbstractValue where
  | Runtime
  | Const (u : Nat)
deriving DecidableEq, Repr

/-- Hand-written `impl BorshSerialize for MachineValue`: one discriminant byte
0..8 in declaration order, then the variant payload. -/
def encodeMachineValue : MachineValue → List Nat
  | .Undefined => [0]
  | .Vmctx => [1]
  | .VmctxDeref v => 2 :: encSeq encU64 v
  | .PreserveRegister r => 3 :: encU64 r.val
  | .CopyStackBPRelative i => 4 :: encI32 i
  | .ExplicitShadow => [5]
  | .WasmStack u => 6 :: encU64 u
  | .WasmLocal u => 7 :: encU64 u
  | .TwoHalves a b => 8 :: (encodeMachineValue a ++ encodeMachineValue b)

/-- Fuelled body of the hand-written `impl BorshDeserialize for MachineValue`.
The Rust recursion (variant 8 deserializes two nested `MachineValue`s)
terminates because every recursive call first consumes the discriminant byte;
the fuel makes that argument explicit. Whenever `fuel ≥ buf.length` the fuel
never runs out before the buffer does, so the `fuel = 0` branch coincides with
the read-from-empty-buffer error and the function computes exactly what the
Rust code computes. -/
def decodeMachineValueF : Nat → List Nat → Except DecodeErr (MachineValue × List Nat)
  | _, [] => .error .truncated
  | 0, _ :: _ => .error .truncated
  | fuel + 1, b :: rest =>
    if b = 0 then .ok (.Undefined, rest)
    else if b = 1 then .ok (.Vmctx, rest)
    else if b = 2 then (decSeq (decLE 8) rest).map fun p => (.VmctxDeref p.1, p.2)
    else if b = 3 then (decLE 8 rest).map fun p => (.PreserveRegister ⟨p.1⟩, p.2)
    else if b = 4 then (decI32 rest).map fun p => (.CopyStackBPRelative p.1, p.2)
    else if b = 5 then .ok (.ExplicitShadow, rest)
    else if b = 6 then (decLE 8 rest).map fun p => (.WasmStack p.1, p.2)
    else if b = 7 then (decLE 8 rest).map fun p => (.WasmLocal p.1, p.2)
    else if b = 8 then do
      let (x, r1) ← decodeMachineValueF fuel rest
      let (y, r2) ← decodeMachineValueF fuel r1
      .ok (.TwoHalves x y, r2)
    else .error .unexpectedVariant

/-- Hand-written `impl BorshDeserialize for MachineValue`: read one
discriminant byte and dispatch; unknown discriminants are a hard error. -/
def decodeMachineValue (bs : List Nat) : Except DecodeErr (MachineValue × List Nat) :=
  decodeMachineValueF bs.length bs

/-- Nesting depth of `TwoHalves`, the measure that bounds the fuel the
decoder needs. -/
def mvDepth : MachineValue → Nat
  | .TwoHalves a b => 1 + max (mvDepth a) (mvDepth b)
  | _ => 0

/-- Range side conditions under which the borsh encoding of a `MachineValue`
is lossless: sequence lengths fit in the `u32` prefix, `usize` payloads fit in
64 bits, and the `i32` payload is in `i32` range. Real Rust values satisfy all
of them by construction of the machine types. -/
def wfMachineValue : MachineValue → Bool
  | .VmctxDeref v => decide (v.length < 2 ^ 32) && v.all fun n => decide (n < 2 ^ 64)
  | .PreserveRegister r => decide (r.val < 2 ^ 64)
  | .CopyStackBPRelative i => decide (-(2 ^ 31) ≤ i) && decide (i < 2 ^ 31)
  | .WasmStack u => decide (u < 2 ^ 64)
  | .WasmLocal u => decide (u < 2 ^ 64)
  | .TwoHalves a b => wfMachineValue a && wfMachineValue b
  | _ => true

/-- Derived `BorshSerialize for WasmAbstractValue`: discriminant byte then the
`u64` payload for `Const`. -/
def encodeWasmAbstractValue : WasmAbstractValue → List Nat
  | .Runtime => [0]
  | .Const u => 1 :: encU64 u

/-- Derived `BorshDeserialize for WasmAbstractValue`. -/
def decodeWasmAbstractValue : List Nat → Except DecodeErr (WasmAbstractValue × List Nat)
  | [] => .error .truncated
  | b :: rest =>
    if b = 0 then .ok (.Runtime, rest)
    else if b = 1 then (decLE 8 rest).map fun p => (.Const p.1, p.2)
    else .error .unexpectedVariant

/-- Range side condition for a lossless `WasmAbstractValue` encoding. -/
def wfWasmAbstractValue : WasmAbstractValue → Bool
  | .Runtime => true
  | .Const u => decide (u < 2 ^ 64)

/-- Derived borsh codec of `RegisterIndex(pub usize)`: just its `usize` field. -/
def encodeRegisterIndex (r : RegisterIndex) : List Nat := encU64 r.val

/-- Decode a `RegisterIndex`: one `u64`. -/
def decodeRegisterIndex (bs : List Nat) : Except DecodeErr (RegisterIndex × List Nat) :=
  (decLE 8 bs).map fun p => (RegisterIndex.mk p.1, p.2)

/-- Borsh tuple / struct-field pair: the two encodings back to back. -/
def encProd {α β : Type} (f : α → List Nat) (g : β → List Nat) (p : α × β) : List Nat :=
  f p.1 ++ g p.2

/-- Decode a borsh pair: the first component, then the second. -/
def decProd {α β : Type} (f : List Nat → Except DecodeErr (α × List Nat))
    (g : List Nat → Except DecodeErr (β × List Nat)) (bs : List Nat) :
    Except DecodeErr ((α × β) × List Nat) := do
  let (a, r1) ← f bs
  let (b, r2) ← g r1
  .ok ((a, b), r2)

/-- Machine state baseline checkpoint (`struct MachineState` in the source).
`prev_frame` is a `BTreeMap<usize, MachineValue>`, modelled by its ascending
key/value iteration. -/
structure MachineState where
  stack_values : List MachineValue
  register_values : List MachineValue
  prev_frame : List (Nat × MachineValue)
  wasm_stack : List WasmAbstractValue
  wasm_stack_private_depth : Nat
  wasm_inst_offset : Nat
deriving DecidableEq, Repr

/-- Derived `BorshSerialize for MachineState`: the six fields in declaration
order. -/
def encodeMachineState (s : MachineState) : List Nat :=
  encSeq encodeMachineValue s.stack_values ++
  encSeq encodeMachineValue s.register_values ++
  encSeq (encProd encU64 encodeMachineValue) s.prev_frame ++
  encSeq encodeWasmAbstractValue s.wasm_stack ++
  encU64 s.wasm_stack_private_depth ++
  encU64 s.wasm_inst_offset

/-- Derived `BorshDeserialize for MachineState`. -/
def decodeMachineState (bs : List Nat) : Except DecodeErr (MachineState × List Nat) := do
  let (sv, r1) ← decSeq decodeMachineValue bs
  let (rv, r2) ← decSeq decodeMachineValue r1
  let (pf, r3) ← decSeq (decProd (decLE 8) decodeMachineValue) r2
  let (ws, r4) ← decSeq decodeWasmAbstractValue r3
  let (d, r5) ← decLE 8 r4
  let (o, r6) ← decLE 8 r5
  .ok (⟨sv, rv, pf, ws, d, o⟩, r6)

/-- Machine state diff (`struct MachineStateDiff` in the source): the
incremental change from the diff `last` points at (or from the baseline when
`last` is `None`). `prev_frame_diff` maps a frame slot to `Some` new value or
`None` for removal. -/
structure MachineStateDiff where
  last : Option Nat
  stack_push : List MachineValue
  stack_pop : Nat
  reg_diff : List (RegisterIndex × MachineValue)
  prev_frame_diff : List (Nat × Option MachineValue)
  wasm_stack_push : List WasmAbstractValue
  wasm_stack_pop : Nat
  wasm_stack_private_depth : Nat
  wasm_inst_offset : Nat
deriving DecidableEq, Repr

instance : Inhabited MachineStateDiff :=
  ⟨⟨none, [], 0, [], [], [], 0, 0, 0⟩⟩

/-- Derived `BorshSerialize for MachineStateDiff`: the nine fields in
declaration order. -/
def encodeMachineStateDiff (d : MachineStateDiff) : List Nat :=
  encOpt encU64 d.last ++
  encSeq encodeMachineValue d.stack_push ++
  encU64 d.stack_pop ++
  encSeq (encProd encodeRegisterIndex encodeMachineValue) d.reg_diff ++
  encSeq (encProd encU64 (encOpt encodeMachineValue)) d.prev_frame_diff ++
  encSeq encodeWasmAbstractValue d.wasm_stack_push ++
  encU64 d.wasm_stack_pop ++
  encU64 d.wasm_stack_private_depth ++
  encU64 d.wasm_inst_offset

/-- Derived `BorshDeserialize for MachineStateDiff`. There is no validation of
`last` against the diff's own position: whatever index (or `None`) is in the
bytes is accepted. -/
def decodeMachineStateDiff (bs : List Nat) :
    Except DecodeErr (MachineStateDiff × List Nat) := do
  let (l, r1) ← decOpt (decLE 8) bs
  let (sp, r2) ← decSeq decodeMachineValue r1
  let (spop, r3) ← decLE 8 r2
  let (rd, r4) ← decSeq (decProd decodeRegisterIndex decodeMachineValue) r3
  let (pfd, r5) ← decSeq (decProd (decLE 8) (decOpt decodeMachineValue)) r4
  let (wsp, r6) ← decSeq decodeWasmAbstractValue r5
  let (wspop, r7) ← decLE 8 r6
  let (wd, r8) ← decLE 8 r7
  let (wo, r9) ← decLE 8 r8
  .ok (⟨l, sp, spop, rd, pfd, wsp, wspop, wd, wo⟩, r9)

/-- Suspend offset (`enum SuspendOffset` in the source): why a safepoint
exists at a code offset. -/
inductive SuspendOffset where
  | Loop (off : Nat)
  | Call (off : Nat)
  | Trappable (off : Nat)
deriving DecidableEq, Repr

/-- Derived `BorshSerialize for SuspendOffset`: discriminant byte 0/1/2 in
declaration order, then the `usize` payload. -/
def encodeSuspendOffset : SuspendOffset → List Nat
  | .Loop off => 0 :: encU64 off
  | .Call off => 1 :: encU64 off
  | .Trappable off => 2 :: encU64 off

/-- Derived `BorshDeserialize for SuspendOffset`. -/
def decodeSuspendOffset : List Nat → Except DecodeErr (SuspendOffset × List Nat)
  | [] => .error .truncated
  | b :: rest =>
    if b = 0 then (decLE 8 rest).map fun p => (.Loop p.1, p.2)
    else if b = 1 then (decLE 8 rest).map fun p => (.Call p.1, p.2)
    else if b = 2 then (decLE 8 rest).map fun p => (.Trappable p.1, p.2)
    else .error .unexpectedVariant

/-- Offset info (`struct OffsetInfo` in the source): the half-open code range
`[.., end_offset)` governed by diff `diff_id`, activating at
`activate_offset`. -/
structure OffsetInfo where
  end_offset : Nat
  diff_id : Nat
  activate_offset : Nat
deriving DecidableEq, Repr

/-- Derived `BorshSerialize for OffsetInfo`: three `usize` fields. -/
def encodeOffsetInfo (oi : OffsetInfo) : List Nat :=
  encU64 oi.end_offset ++ encU64 oi.diff_id ++ encU64 oi.activate_offset

/-- Derived `BorshDeserialize for OffsetInfo`. -/
def decodeOffsetInfo (bs : List Nat) : Except DecodeErr (OffsetInfo × List Nat) := do
  let (e, r1) ← decLE 8 bs
  let (d, r2) ← decLE 8 r1
  let (a, r3) ← decLE 8 r2
  .ok (⟨e, d, a⟩, r3)

/-- Per-function state map (`struct FunctionStateMap` in the source). The four
offset maps are `BTreeMap`s, modelled by their ascending iterations. -/
structure FunctionStateMap where
  initial : MachineState
  local_function_id : Nat
  locals : List WasmAbstractValue
  shadow_size : Nat
  diffs : List MachineStateDiff
  wasm_function_header_target_offset : Option SuspendOffset
  wasm_offset_to_target_offset : List (Nat × SuspendOffset)
  loop_offsets : List (Nat × OffsetInfo)
  call_offsets : List (Nat × OffsetInfo)
  trappable_offsets : List (Nat × OffsetInfo)
deriving DecidableEq, Repr

/-- Derived `BorshSerialize for FunctionStateMap`: the ten fields in
declaration order. -/
def encodeFunctionStateMap (m : FunctionStateMap) : List Nat :=
  encodeMachineState m.initial ++
  encU64 m.local_function_id ++
  encSeq encodeWasmAbstractValue m.locals ++
  encU64 m.shadow_size ++
  encSeq encodeMachineStateDiff m.diffs ++
  encOpt encodeSuspendOffset m.wasm_function_header_target_offset ++
  encSeq (encProd encU64 encodeSuspendOffset) m.wasm_offset_to_target_offset ++
  encSeq (encProd encU64 encodeOffsetInfo) m.loop_offsets ++
  encSeq (encProd encU64 encodeOffsetInfo) m.call_offsets ++
  encSeq (encProd encU64 encodeOffsetInfo) m.trappable_offsets

/-- Derived `BorshDeserialize for FunctionStateMap`. -/
def decodeFunctionStateMap (bs : List Nat) :
    Except DecodeErr (FunctionStateMap × List Nat) := do
  let (ini, r1) ← decodeMachineState bs
  let (fid, r2) ← decLE 8 r1
  let (loc, r3) ← decSeq decodeWasmAbstractValue r2
  let (sh, r4) ← decLE 8 r3
  let (df, r5) ← decSeq decodeMachineStateDiff r4
  let (hdr, r6) ← decOpt decodeSuspendOffset r5
  let (wo, r7) ← decSeq (decProd (decLE 8) decodeSuspendOffset) r6
  let (lo, r8) ← decSeq (decProd (decLE 8) decodeOffsetInfo) r7
  let (co, r9) ← decSeq (decProd (decLE 8) decodeOffsetInfo) r8
  let (tro, r10) ← decSeq (decProd (decLE 8) decodeOffsetInfo) r9
  .ok (⟨ini, fid, loc, sh, df, hdr, wo, lo, co, tro⟩, r10)

/-- Module state map (`struct ModuleStateMap` in the source):
`BTreeMap<usize, FunctionStateMap>` plus the advisory `total_size`. -/
structure ModuleStateMap where
  local_functions : List (Nat × FunctionStateMap)
  total_size : Nat
deriving DecidableEq, Repr

/-- Derived `BorshSerialize for ModuleStateMap`. -/
def encodeModuleStateMap (m : ModuleStateMap) : List Nat :=
  encSeq (encProd encU64 encodeFunctionStateMap) m.local_functions ++
  encU64 m.total_size

/-- Derived `BorshDeserialize for ModuleStateMap`. `total_size` is read back
but never validated against the content. -/
def decodeModuleStateMap (bs : List Nat) :
    Except DecodeErr (ModuleStateMap × List Nat) := do
  let (lf, r1) ← decSeq (decProd (decLE 8) decodeFunctionStateMap) bs
  let (ts, r2) ← decLE 8 r1
  .ok (⟨lf, ts⟩, r2)

/-- Values representable as a `u64` (every Rust `usize` is). -/
def wfU64 (n : Nat) : Bool := decide (n < 2 ^ 64)

/-- A sequence whose length fits the `u32` prefix and whose elements are all
well-formed. -/
def wfSeq {α : Type} (f : α → Bool) (xs : List α) : Bool :=
  decide (xs.length < 2 ^ 32) && xs.all f

/-- A map entry with a `usize` key and a well-formed value. -/
def wfKV {α : Type} (f : α → Bool) (p : Nat × α) : Bool := wfU64 p.1 && f p.2

/-- An optional well-formed value. -/
def wfOpt {α : Type} (f : α → Bool) : Option α → Bool
  | none => true
  | some x => f x

/-- Range side conditions for `MachineState` (all `usize` fields in `u64`
range, all sequence lengths in `u32` range). -/
def wfMachineState (s : MachineState) : Bool :=
  wfSeq wfMachineValue s.stack_values &&
  wfSeq wfMachineValue s.register_values &&
  wfSeq (wfKV wfMachineValue) s.prev_frame &&
  wfSeq wfWasmAbstractValue s.wasm_stack &&
  wfU64 s.wasm_stack_private_depth &&
  wfU64 s.wasm_inst_offset

/-- Range side conditions for `MachineStateDiff`. -/
def wfMachineStateDiff (d : MachineStateDiff) : Bool :=
  wfOpt wfU64 d.last &&
  wfSeq wfMachineValue d.stack_push &&
  wfU64 d.stack_pop &&
  wfSeq (fun p => wfU64 p.1.val && wfMachineValue p.2) d.reg_diff &&
  wfSeq (wfKV (wfOpt wfMachineValue)) d.prev_frame_diff &&
  wfSeq wfWasmAbstractValue d.wasm_stack_push &&
  wfU64 d.wasm_stack_pop &&
  wfU64 d.wasm_stack_private_depth &&
  wfU64 d.wasm_inst_offset

/-- Range side condition for `SuspendOffset`. -/
def wfSuspendOffset : SuspendOffset → Bool
  | .Loop off => wfU64 off
  | .Call off => wfU64 off
  | .Trappable off => wfU64 off

/-- Range side conditions for `OffsetInfo`. -/
def wfOffsetInfo (oi : OffsetInfo) : Bool :=
  wfU64 oi.end_offset && wfU64 oi.diff_id && wfU64 oi.activate_offset

/-- Range side conditions for `FunctionStateMap`. -/
def wfFunctionStateMap (m : FunctionStateMap) : Bool :=
  wfMachineState m.initial &&
  wfU64 m.local_function_id &&
  wfSeq wfWasmAbstractValue m.locals &&
  wfU64 m.shadow_size &&
  wfSeq wfMachineStateDiff m.diffs &&
  wfOpt wfSuspendOffset m.wasm_function_header_target_offset &&
  wfSeq (wfKV wfSuspendOffset) m.wasm_offset_to_target_offset &&
  wfSeq (wfKV wfOffsetInfo) m.loop_offsets &&
  wfSeq (wfKV wfOffsetInfo) m.call_offsets &&
  wfSeq (wfKV wfOffsetInfo) m.trappable_offsets

/-- Range side conditions for `ModuleStateMap`. -/
def wfModuleStateMap (m : ModuleStateMap) : Bool :=
  wfSeq (wfKV wfFunctionStateMap) m.local_functions && wfU64 m.total_size

/-- Exception code (`enum ExceptionCode` in the source), with declared
discriminants 0..5 in declaration order. -/
inductive ExceptionCode where
  | Unreachable
  | IncorrectCallIndirectSignature
  | MemoryOutOfBounds
  | CallIndirectOOB
  | IllegalArithmetic
  | MisalignedAtomicAccess
deriving DecidableEq, Repr

/-- The declared numeric discriminant of an `ExceptionCode`, which is also its
single-byte borsh encoding and its in-memory representation byte. -/
def ExceptionCode.toByte : ExceptionCode → Nat
  | .Unreachable => 0
  | .IncorrectCallIndirectSignature => 1
  | .MemoryOutOfBounds => 2
  | .CallIndirectOOB => 3
  | .IllegalArithmetic => 4
  | .MisalignedAtomicAccess => 5

/-- Derived `BorshSerialize for ExceptionCode`: the discriminant byte. -/
def encodeExceptionCode (c : ExceptionCode) : List Nat := [c.toByte]

/-- Derived `BorshDeserialize for ExceptionCode`: bytes 0..5 map to the
variants in order, anything else is an error. -/
def decodeExceptionCode : List Nat → Except DecodeErr (ExceptionCode × List Nat)
  | [] => .error .truncated
  | b :: rest =>
    if b = 0 then .ok (.Unreachable, rest)
    else if b = 1 then .ok (.IncorrectCallIndirectSignature, rest)
    else if b = 2 then .ok (.MemoryOutOfBounds, rest)
    else if b = 3 then .ok (.CallIndirectOOB, rest)
    else if b = 4 then .ok (.IllegalArithmetic, rest)
    else if b = 5 then .ok (.MisalignedAtomicAccess, rest)
    else .error .unexpectedVariant

/-- In-memory state of the hashbrown `RawTable` backing a
`HashMap<usize, ExceptionCode>`, as reached by the source's
`mem::transmute_copy` through `HashMap2`/`HashMap3`/`RawTable`
(`bucket_mask`, `growth_left`, `items`, and the `ctrl` pointer). `slots`
models the `(usize, ExceptionCode)` pair values the serializer reads from
`ctrl.cast::<(usize, ExceptionCode)>().wrapping_sub(bucket_mask + 1)` for
`2 * (bucket_mask + 1) + 16` consecutive elements: the bucket data region
(whose occupied positions and residual garbage depend on the hash seed and
insertion history), followed by the control bytes and adjacent heap memory
reinterpreted as pairs. Each slot is `(key bits, code byte)`. -/
structure RawTable where
  bucket_mask : Nat
  growth_left : Nat
  items : Nat
  slots : List (Nat × Nat)
deriving DecidableEq, Repr

/-- Exception table (`struct ExceptionTable` in the source): the abstract
`offset_to_code` mapping of the `HashMap<usize, ExceptionCode>` (as a
key/value pair list, keys unique), together with `table`, the in-memory
hashbrown representation of that same map, which is what the hand-written
serializer actually reads. -/
structure ExceptionTable where
  offset_to_code : List (Nat × ExceptionCode)
  table : RawTable
deriving DecidableEq, Repr

/-- Hand-written `impl BorshSerialize for ExceptionTable` (the transmute
hack): serialize `bucket_mask`, `growth_left` and `items` as `usize`s, then
the raw slice of `2 * buckets + 16` `(usize, ExceptionCode)` slots starting
`buckets` slots below the `ctrl` pointer, as a length-prefixed borsh slice.
The output is a copy of the hash table's internal memory layout, not a
function of the abstract `offset_to_code` mapping. -/
def encodeExceptionTable (t : ExceptionTable) : List Nat :=
  encU64 t.table.bucket_mask ++
  encU64 t.table.growth_left ++
  encU64 t.table.items ++
  encU32 t.table.slots.length ++
  (t.table.slots.map fun p => encU64 p.1 ++ [p.2]).flatten

/-- Derived `BorshDeserialize for ExceptionTable` (the `HashMap` instance):
a `u32` pair count followed by that many `(usize, ExceptionCode)` pairs.
Returns the decoded key/value pairs in buffer order; the raw-table layout of
the freshly built `HashMap` is seed-dependent and not part of the decoded
content. -/
def decodeExceptionTable (bs : List Nat) :
    Except DecodeErr (List (Nat × ExceptionCode) × List Nat) :=
  decSeq (decProd (decLE 8) decodeExceptionCode) bs

/-- Key/value set equality of two association lists: every pair of one occurs
in the other. This is the observational equality of two `HashMap`s. -/
def contentEq (a b : List (Nat × ExceptionCode)) : Bool :=
  (a.all fun p => decide (p ∈ b)) && (b.all fun p => decide (p ∈ a))

/-- Modelled from the spec: the portable Exception Table encoding the spec
requires (spec §4.4) — a length-prefixed list of `(offset, code)` pairs in
ascending offset order, never the hash table's internal layout. The
`offset_to_code` field is passed in ascending key order. This encoder is
absent from the source (the source ships the transmute hack instead); it is
stated here only to compare the source's encoder against it. -/
def specPortablePairListEncoding (ps : List (Nat × ExceptionCode)) : List Nat :=
  encU32 ps.length ++ (ps.map fun p => encU64 p.1 ++ encodeExceptionCode p.2).flatten

/-- Cache image (`struct CacheImage` in the source). -/
structure CacheImage where
  code : List Nat
  function_pointers : List Nat
  function_offsets : List Nat
  func_import_count : Nat
  msm : ModuleStateMap
  exception_table : ExceptionTable
deriving DecidableEq, Repr

/-- Derived `BorshSerialize for CacheImage`: the six fields in declaration
order, each by its own serializer (`exception_table` by the transmute hack). -/
def encodeCacheImage (x : CacheImage) : List Nat :=
  encBytes x.code ++
  encSeq encU64 x.function_pointers ++
  encSeq encU64 x.function_offsets ++
  encU64 x.func_import_count ++
  encodeModuleStateMap x.msm ++
  encodeExceptionTable x.exception_table

/-- Observable side effects of the embedded operations beyond consuming the
input buffer and producing the return value. `printTimings` models the
`println!` of the seven `Instant::now` deltas in `CacheImage::deserialize`;
the printed text depends on the wall clock and is not modelled. -/
inductive Effect where
  | printTimings
deriving DecidableEq, Repr

/-- Decoded content of a `CacheImage`: what `CacheImage::deserialize`
determines from the bytes. The exception table field is its decoded key/value
mapping (the raw layout of the rebuilt `HashMap` is seed-dependent). -/
structure CacheImageData where
  code : List Nat
  function_pointers : List Nat
  function_offsets : List Nat
  func_import_count : Nat
  msm : ModuleStateMap
  exception_table : List (Nat × ExceptionCode)
deriving DecidableEq, Repr

/-- Hand-written `impl BorshDeserialize for CacheImage`: the six fields in
order (`func_import_count` read as a `u64`), then one `println!` of the
per-field timings. The emitted `Effect` list records that print; it happens
exactly on the success path, after all fields have been decoded. -/
def decodeCacheImage (bs : List Nat) :
    Except DecodeErr (CacheImageData × List Nat × List Effect) := do
  let (code, r1) ← decBytes bs
  let (fp, r2) ← decSeq (decLE 8) r1
  let (fo, r3) ← decSeq (decLE 8) r2
  let (cnt, r4) ← decLE 8 r3
  let (msm, r5) ← decodeModuleStateMap r4
  let (et, r6) ← decodeExceptionTable r5
  .ok (⟨code, fp, fo, cnt, msm, et⟩, r6, [.printTimings])

/-- Modelled from the spec: remove the trailing `n` elements of a stack
(spec §4.1 step 4, "remove `stack_pop` trailing elements"). The reconstruction
algorithm itself is not part of `src/main.rs` (only the data it runs on is);
these definitions follow spec §4.1. -/
def popTail {α : Type} (xs : List α) (n : Nat) : List α := xs.take (xs.length - n)

/-- Modelled from the spec: remove a key from the frame-slot mapping
(spec §4.1 step 4, "absent-value entries remove the key"). -/
def mapRemove {α : Type} (k : Nat) (m : List (Nat × α)) : List (Nat × α) :=
  m.filter fun p => decide (p.1 ≠ k)

/-- Modelled from the spec: set a key in the ordered frame-slot mapping,
keeping ascending key order and key uniqueness (spec §3 invariant). -/
def mapInsert {α : Type} (k : Nat) (v : α) : List (Nat × α) → List (Nat × α)
  | [] => [(k, v)]
  | (k2, v2) :: t =>
    if k < k2 then (k, v) :: (k2, v2) :: t
    else if k = k2 then (k, v) :: t
    else (k2, v2) :: mapInsert k v t

/-- Modelled from the spec: apply one `MachineStateDiff` to a machine state
(spec §4.1 step 4): append `stack_push` then remove `stack_pop` trailing
elements; apply each `reg_diff` entry as a positional override; apply
`prev_frame_diff` entries (set or remove); do the analogous push/pop on the
wasm-level stack; overwrite `wasm_stack_private_depth` and `wasm_inst_offset`
with the diff's absolute values. -/
def applyMachineStateDiff (s : MachineState) (d : MachineStateDiff) : MachineState where
  stack_values := popTail (s.stack_values ++ d.stack_push) d.stack_pop
  register_values :=
    d.reg_diff.foldl (fun rs p => rs.set p.1.val p.2) s.register_values
  prev_frame :=
    d.prev_frame_diff.foldl (fun m p =>
      match p.2 with
      | some v => mapInsert p.1 v m
      | none => mapRemove p.1 m) s.prev_frame
  wasm_stack := popTail (s.wasm_stack ++ d.wasm_stack_push) d.wasm_stack_pop
  wasm_stack_private_depth := d.wasm_stack_private_depth
  wasm_inst_offset := d.wasm_inst_offset

/-- Modelled from the spec: walk the `last` back-references from the selected
diff up to the baseline and return the chain in baseline-to-selected order
(spec §4.1 step 3). An out-of-range index is `diffChainCorrupt`; the fuel
(one more than the diff count at the top-level call) can only run out on a
cyclic chain, which is likewise `diffChainCorrupt`. -/
def collectDiffChain (diffs : List MachineStateDiff) :
    Nat → Nat → Except DecodeErr (List Nat)
  | 0, _ => .error .diffChainCorrupt
  | fuel + 1, i =>
    match diffs[i]? with
    | none => .error .diffChainCorrupt
    | some d =>
      match d.last with
      | none => .ok [i]
      | some j => (collectDiffChain diffs fuel j).map fun c => c ++ [i]

/-- Modelled from the spec: reconstruct the full machine state at the diff
selected by `diff_id` (spec §4.1 steps 3-4): collect the chain, then starting
from `initial` apply each diff in baseline-to-selected order. -/
def reconstruct (m : FunctionStateMap) (diff_id : Nat) :
    Except DecodeErr MachineState :=
  (collectDiffChain m.diffs (m.diffs.length + 1) diff_id).map fun chain =>
    chain.foldl (fun s i => applyMachineStateDiff s (m.diffs.getD i default)) m.initial

/-- Concrete exception table used to evaluate the hand-written serializer: the
abstract mapping is the single pair `(4, MemoryOutOfBounds)`; the raw table is
a plausible 4-bucket hashbrown state for it (`bucket_mask = 3`,
`growth_left = 2`, `items = 1`, the occupied slot first and the remaining
`2 * 4 + 16 - 1` slots holding residual memory). -/
def exTable0 : ExceptionTable where
  offset_to_code := [(4, .MemoryOutOfBounds)]
  table := { bucket_mask := 3, growth_left := 2, items := 1,
             slots := (4, 2) :: List.replicate 23 (0, 0) }

/-- First of two raw-table states for the same abstract mapping
`(1, Unreachable), (2, MemoryOutOfBounds)`: the two occupied slots in one
placement. Which slots a hashbrown table occupies depends on its `RandomState`
hash seed and on insertion order, so equal final mappings routinely sit in
different slots. -/
def exTableA : ExceptionTable where
  offset_to_code := [(1, .Unreachable), (2, .MemoryOutOfBounds)]
  table := { bucket_mask := 3, growth_left := 1, items := 2,
             slots := (1, 0) :: (2, 2) :: List.replicate 22 (0, 0) }

/-- Second raw-table state for the same abstract mapping as `exTableA`, with
the two occupied slots in the other placement. -/
def exTableB : ExceptionTable where
  offset_to_code := [(1, .Unreachable), (2, .MemoryOutOfBounds)]
  table := { bucket_mask := 3, growth_left := 1, items := 2,
             slots := (2, 2) :: (1, 0) :: List.replicate 22 (0, 0) }

/-- Concrete function state map whose diff at index 2 names itself as its
predecessor (`last = Some 2`): a corrupt, cyclic diff chain. -/
def fsmSelfRef : FunctionStateMap where
  initial := { stack_values := [], register_values := [], prev_frame := [],
               wasm_stack := [], wasm_stack_private_depth := 0,
               wasm_inst_offset := 0 }
  local_function_id := 0
  locals := []
  shadow_size := 0
  diffs := [default, default,
    { last := some 2, stack_push := [], stack_pop := 0, reg_diff := [],
      prev_frame_diff := [], wasm_stack_push := [], wasm_stack_pop := 0,
      wasm_stack_private_depth := 0, wasm_inst_offset := 0 }]
  wasm_function_header_target_offset := none
  wasm_offset_to_target_offset := []
  loop_offsets := []
  call_offsets := []
  trappable_offsets := []

/-- The empty module state map. -/
def msm0 : ModuleStateMap := ⟨[], 0⟩

/-- A minimal well-formed `CacheImage` byte buffer in the format
`CacheImage::deserialize` reads: empty code, empty pointer tables, import
count 0, empty module state map, and an exception-table field holding an
empty pair list. -/
def c8buf : List Nat :=
  encBytes [] ++ encSeq encU64 [] ++ encSeq encU64 [] ++ encU64 0 ++
  encodeModuleStateMap msm0 ++ encSeq (encProd encU64 encodeExceptionCode) []

/-- The decoded content of `c8buf`. -/
def c8img : CacheImageData := ⟨[], [], [], 0, msm0, []⟩

theorem exceptBind_ok {ε σ τ : Type} (x : σ) (k : σ → Except ε τ) :
    (Except.ok x >>= k) = k x := rfl

theorem exceptBind_error {ε σ τ : Type} (e : ε) (k : σ → Except ε τ) :
    (Except.error e >>= k : Except ε τ) = Except.error e := rfl

theorem exceptMap_ok {ε σ τ : Type} (g : σ → τ) (x : σ) :
    (Except.ok x).map g = (.ok (g x) : Except ε τ) := rfl

theorem decLE_encLE (w : Nat) :
    ∀ (n : Nat) (rest : List Nat), n < 256 ^ w →
      decLE w (encLE w n ++ rest) = .ok (n, rest) := by
  induction w with
  | zero =>
    intro n rest h
    interval_cases n
    simp [encLE, decLE]
  | succ w ih =>
    intro n rest h
    have hdiv : n / 256 < 256 ^ w := by
      apply Nat.div_lt_of_lt_mul
      calc n < 256 ^ (w + 1) := h
        _ = 256 * 256 ^ w := by ring
    have hstep : encLE (w + 1) n ++ rest = n % 256 :: (encLE w (n / 256) ++ rest) := by
      simp [encLE]
    rw [hstep]
    simp only [decLE]
    rw [ih (n / 256) rest hdiv]
    simp only [Except.map]
    rw [Nat.mod_add_div]

theorem decLE_length_le {w : Nat} :
    ∀ {bs : List Nat} {n : Nat} {rest : List Nat},
      decLE w bs = .ok (n, rest) → rest.length ≤ bs.length := by
  induction w with
  | zero =>
    intro bs n rest h
    simp only [decLE, Except.ok.injEq, Prod.mk.injEq] at h
    simp [h.2]
  | succ w ih =>
    intro bs n rest h
    match bs with
    | [] => simp [decLE] at h
    | b :: bs =>
      simp only [decLE] at h
      cases hrec : decLE w bs with
      | error e => rw [hrec] at h; simp [Except.map] at h
      | ok p =>
        rw [hrec] at h
        simp only [Except.map, Except.ok.injEq, Prod.mk.injEq] at h
        obtain ⟨h1, h2⟩ := h
        subst h2
        have := ih (by rw [hrec])
        simp only [List.length_cons]
        omega

theorem decI32_encI32 (i : Int) (rest : List Nat)
    (h1 : -(2 ^ 31) ≤ i) (h2 : i < 2 ^ 31) :
    decI32 (encI32 i ++ rest) = .ok (i, rest) := by
  have hmod : (0 : Int) ≤ i % (2 ^ 32) := Int.emod_nonneg i (by norm_num)
  have hlt : i % (2 ^ 32) < 2 ^ 32 := Int.emod_lt_of_pos i (by norm_num)
  have hnat : (i % (2 ^ 32)).toNat < 256 ^ 4 := by
    have : (256 : Nat) ^ 4 = 2 ^ 32 := by norm_num
    omega
  simp only [decI32, encI32, decLE_encLE 4 _ rest hnat, Except.map]
  have hval : (if (i % (2 ^ 32)).toNat < 2 ^ 31 then ((i % (2 ^ 32)).toNat : Int)
      else ((i % (2 ^ 32)).toNat : Int) - 2 ^ 32) = i := by
    by_cases hcond : (i % (2 ^ 32)).toNat < 2 ^ 31
    · rw [if_pos hcond]
      omega
    · rw [if_neg hcond]
      omega
  rw [hval]

theorem decOpt_encOpt {α : Type} {f : α → List Nat}
    {g : List Nat → Except DecodeErr (α × List Nat)} (o : Option α)
    (rest : List Nat) (h : ∀ x r, o = some x → g (f x ++ r) = .ok (x, r)) :
    decOpt g (encOpt f o ++ rest) = .ok (o, rest) := by
  cases o with
  | none => simp [encOpt, decOpt]
  | some x =>
    simp [encOpt, decOpt, h x rest rfl, Except.map]

theorem decCount_encJoin {α : Type} {f : α → List Nat}
    {g : List Nat → Except DecodeErr (α × List Nat)} (xs : List α)
    (h : ∀ x ∈ xs, ∀ r, g (f x ++ r) = .ok (x, r)) :
    ∀ rest, decCount g xs.length ((xs.map f).flatten ++ rest) = .ok (xs, rest) := by
  induction xs with
  | nil => intro rest; simp [decCount]
  | cons x xs ih =>
    intro rest
    simp only [List.map_cons, List.flatten, List.length_cons, decCount,
      List.append_assoc, h x (by simp) ((xs.map f).flatten ++ rest), exceptBind_ok]
    rw [ih (fun y hy r => h y (by simp [hy]) r) rest]
    rfl

theorem decSeq_encSeq {α : Type} {f : α → List Nat}
    {g : List Nat → Except DecodeErr (α × List Nat)} (xs : List α)
    (rest : List Nat) (hlen : xs.length < 2 ^ 32)
    (h : ∀ x ∈ xs, ∀ r, g (f x ++ r) = .ok (x, r)) :
    decSeq g (encSeq f xs ++ rest) = .ok (xs, rest) := by
  have h32 : xs.length < 256 ^ 4 := by norm_num at hlen ⊢; omega
  simp only [decSeq, encSeq, encU32, List.append_assoc,
    decLE_encLE 4 xs.length _ h32, exceptBind_ok]
  exact decCount_encJoin xs h rest

theorem decBytes_encBytes (bs : List Nat) (rest : List Nat)
    (hlen : bs.length < 2 ^ 32) :
    decBytes (encBytes bs ++ rest) = .ok (bs, rest) := by
  have h32 : bs.length < 256 ^ 4 := by norm_num at hlen ⊢; omega
  simp only [decBytes, encBytes, encU32, List.append_assoc,
    decLE_encLE 4 bs.length _ h32, exceptBind_ok]
  rw [if_pos (by simp)]
  simp [List.take_left, List.drop_left]

theorem exceptMap_ok_snd {α β : Type} {m : Except DecodeErr (α × List Nat)}
    {f : α → β} {v : β} {rest : List Nat}
    (h : (m.map fun p => (f p.1, p.2)) = .ok (v, rest)) :
    ∃ x, m = .ok (x, rest) := by
  cases m with
  | error e => simp [Except.map] at h
  | ok p =>
    refine ⟨p.1, ?_⟩
    simp only [Except.map, Except.ok.injEq, Prod.mk.injEq] at h
    simp [← h.2]

theorem decI32_length_le {bs : List Nat} {i : Int} {rest : List Nat}
    (h : decI32 bs = .ok (i, rest)) : rest.length ≤ bs.length := by
  simp only [decI32] at h
  cases hx : decLE 4 bs with
  | error e => rw [hx] at h; simp [Except.map] at h
  | ok p =>
    rw [hx] at h
    simp only [Except.map, Except.ok.injEq, Prod.mk.injEq] at h
    obtain ⟨h1, h2⟩ := h
    subst h2
    exact decLE_length_le hx

theorem decCount_length_le {α : Type}
    {f : List Nat → Except DecodeErr (α × List Nat)}
    (hf : ∀ bs x r, f bs = .ok (x, r) → r.length ≤ bs.length) :
    ∀ {n : Nat} {bs : List Nat} {xs : List α} {rest : List Nat},
      decCount f n bs = .ok (xs, rest) → rest.length ≤ bs.length := by
  intro n
  induction n with
  | zero =>
    intro bs xs rest h
    simp only [decCount, Except.ok.injEq, Prod.mk.injEq] at h
    simp [h.2]
  | succ n ih =>
    intro bs xs rest h
    simp only [decCount] at h
    cases hf1 : f bs with
    | error e => rw [hf1] at h; simp [exceptBind_error] at h
    | ok p =>
      obtain ⟨x, r1⟩ := p
      rw [hf1] at h
      rw [exceptBind_ok] at h
      cases hrec : decCount f n r1 with
      | error e => rw [hrec] at h; simp [exceptBind_error] at h
      | ok q =>
        obtain ⟨ys, r2⟩ := q
        rw [hrec] at h
        rw [exceptBind_ok] at h
        simp only [Except.ok.injEq, Prod.mk.injEq] at h
        obtain ⟨hxs, hrest⟩ := h
        subst hrest
        have hle1 := hf bs x r1 hf1
        have hle2 := ih hrec
        omega

theorem decSeq_length_le {α : Type}
    {f : List Nat → Except DecodeErr (α × List Nat)}
    (hf : ∀ bs x r, f bs = .ok (x, r) → r.length ≤ bs.length)
    {bs : List Nat} {xs : List α} {rest : List Nat}
    (h : decSeq f bs = .ok (xs, rest)) : rest.length ≤ bs.length := by
  simp only [decSeq] at h
  cases hn : decLE 4 bs with
  | error e => rw [hn] at h; simp [exceptBind_error] at h
  | ok p =>
    obtain ⟨n, r1⟩ := p
    rw [hn] at h
    rw [exceptBind_ok] at h
    have hle1 := decLE_length_le hn
    have hle2 : rest.length ≤ r1.length := decCount_length_le hf h
    omega

theorem exceptMap_eq_ok {ε α β : Type} {m : Except ε α} {g : α → β} {y : β}
    (h : m.map g = .ok y) : ∃ x, m = .ok x ∧ g x = y := by
  cases m with
  | error e => simp [Except.map] at h
  | ok a =>
    refine ⟨a, rfl, ?_⟩
    simpa [Except.map] using h

theorem pow256_8 : (256 : Nat) ^ 8 = 2 ^ 64 := by norm_num

theorem decodeMachineValueF_length_lt :
    ∀ (fuel : Nat) {bs : List Nat} {v : MachineValue} {rest : List Nat},
      decodeMachineValueF fuel bs = .ok (v, rest) → rest.length < bs.length := by
  intro fuel
  induction fuel with
  | zero =>
    intro bs v rest h
    match bs with
    | [] => simp [decodeMachineValueF] at h
    | b :: t => simp [decodeMachineValueF] at h
  | succ f ih =>
    intro bs v rest h
    match bs with
    | [] => simp [decodeMachineValueF] at h
    | b :: t =>
      have hlen : rest.length ≤ t.length := by
        simp only [decodeMachineValueF] at h
        by_cases h0 : b = 0
        · rw [if_pos h0] at h
          simp only [Except.ok.injEq, Prod.mk.injEq] at h
          simp [h.2]
        rw [if_neg h0] at h
        by_cases h1 : b = 1
        · rw [if_pos h1] at h
          simp only [Except.ok.injEq, Prod.mk.injEq] at h
          simp [h.2]
        rw [if_neg h1] at h
        by_cases h2 : b = 2
        · rw [if_pos h2] at h
          obtain ⟨p, hp, hg⟩ := exceptMap_eq_ok h
          have hsnd := congrArg Prod.snd hg
          simp only at hsnd
          subst hsnd
          exact decSeq_length_le (fun bs x r hr => decLE_length_le hr) hp
        rw [if_neg h2] at h
        by_cases h3 : b = 3
        · rw [if_pos h3] at h
          obtain ⟨p, hp, hg⟩ := exceptMap_eq_ok h
          have hsnd := congrArg Prod.snd hg
          simp only at hsnd
          subst hsnd
          exact decLE_length_le hp
        rw [if_neg h3] at h
        by_cases h4 : b = 4
        · rw [if_pos h4] at h
          obtain ⟨p, hp, hg⟩ := exceptMap_eq_ok h
          have hsnd := congrArg Prod.snd hg
          simp only at hsnd
          subst hsnd
          obtain ⟨x, r1⟩ := p
          exact decI32_length_le hp
        rw [if_neg h4] at h
        by_cases h5 : b = 5
        · rw [if_pos h5] at h
          simp only [Except.ok.injEq, Prod.mk.injEq] at h
          simp [h.2]
        rw [if_neg h5] at h
        by_cases h6 : b = 6
        · rw [if_pos h6] at h
          obtain ⟨p, hp, hg⟩ := exceptMap_eq_ok h
          have hsnd := congrArg Prod.snd hg
          simp only at hsnd
          subst hsnd
          exact decLE_length_le hp
        rw [if_neg h6] at h
        by_cases h7 : b = 7
        · rw [if_pos h7] at h
          obtain ⟨p, hp, hg⟩ := exceptMap_eq_ok h
          have hsnd := congrArg Prod.snd hg
          simp only at hsnd
          subst hsnd
          exact decLE_length_le hp
        rw [if_neg h7] at h
        by_cases h8 : b = 8
        · rw [if_pos h8] at h
          cases hd1 : decodeMachineValueF f t with
          | error e => rw [hd1] at h; simp [exceptBind_error] at h
          | ok p =>
            obtain ⟨x, r1⟩ := p
            rw [hd1] at h
            rw [exceptBind_ok] at h
            cases hd2 : decodeMachineValueF f r1 with
            | error e => rw [hd2] at h; simp [exceptBind_error] at h
            | ok q =>
              obtain ⟨y, r2⟩ := q
              rw [hd2] at h
              rw [exceptBind_ok] at h
              simp only [Except.ok.injEq, Prod.mk.injEq] at h
              obtain ⟨hv, hrest⟩ := h
              subst hrest
              have hl1 := ih hd1
              have hl2 := ih hd2
              omega
        rw [if_neg h8] at h
        simp at h
      simp only [List.length_cons]
      omega

theorem decodeMachineValueF_enc :
    ∀ (v : MachineValue), wfMachineValue v = true →
      ∀ (fuel : Nat) (rest : List Nat), mvDepth v < fuel →
        decodeMachineValueF fuel (encodeMachineValue v ++ rest) = .ok (v, rest) := by
  intro v
  induction v with
  | Undefined =>
    intro _ fuel rest hfuel
    cases fuel with
    | zero => simp [mvDepth] at hfuel
    | succ f => simp [encodeMachineValue, decodeMachineValueF]
  | Vmctx =>
    intro _ fuel rest hfuel
    cases fuel with
    | zero => simp [mvDepth] at hfuel
    | succ f => simp [encodeMachineValue, decodeMachineValueF]
  | VmctxDeref v =>
    intro hwf fuel rest hfuel
    cases fuel with
    | zero => simp [mvDepth] at hfuel
    | succ f =>
      simp only [wfMachineValue, Bool.and_eq_true, decide_eq_true_eq,
        List.all_eq_true] at hwf
      simp only [encodeMachineValue, List.cons_append, decodeMachineValueF]
      norm_num
      rw [decSeq_encSeq (f := encU64) v rest hwf.1
        (fun x hx r => decLE_encLE 8 x r (by rw [pow256_8]; exact hwf.2 x hx))]
      rfl
  | PreserveRegister r =>
    intro hwf fuel rest hfuel
    cases fuel with
    | zero => simp [mvDepth] at hfuel
    | succ f =>
      simp only [wfMachineValue, decide_eq_true_eq] at hwf
      simp only [encodeMachineValue, List.cons_append, decodeMachineValueF]
      norm_num
      simp only [encU64]
      rw [decLE_encLE 8 r.val rest (by rw [pow256_8]; exact hwf)]
      rfl
  | CopyStackBPRelative i =>
    intro hwf fuel rest hfuel
    cases fuel with
    | zero => simp [mvDepth] at hfuel
    | succ f =>
      simp only [wfMachineValue, Bool.and_eq_true, decide_eq_true_eq] at hwf
      simp only [encodeMachineValue, List.cons_append, decodeMachineValueF]
      norm_num
      rw [decI32_encI32 i rest hwf.1 hwf.2]
      rfl
  | ExplicitShadow =>
    intro _ fuel rest hfuel
    cases fuel with
    | zero => simp [mvDepth] at hfuel
    | succ f => simp [encodeMachineValue, decodeMachineValueF]
  | WasmStack u =>
    intro hwf fuel rest hfuel
    cases fuel with
    | zero => simp [mvDepth] at hfuel
    | succ f =>
      simp only [wfMachineValue, decide_eq_true_eq] at hwf
      simp only [encodeMachineValue, List.cons_append, decodeMachineValueF]
      norm_num
      simp only [encU64]
      rw [decLE_encLE 8 u rest (by rw [pow256_8]; exact hwf)]
      rfl
  | WasmLocal u =>
    intro hwf fuel rest hfuel
    cases fuel with
    | zero => simp [mvDepth] at hfuel
    | succ f =>
      simp only [wfMachineValue, decide_eq_true_eq] at hwf
      simp only [encodeMachineValue, List.cons_append, decodeMachineValueF]
      norm_num
      simp only [encU64]
      rw [decLE_encLE 8 u rest (by rw [pow256_8]; exact hwf)]
      rfl
  | TwoHalves a b iha ihb =>
    intro hwf fuel rest hfuel
    cases fuel with
    | zero => simp [mvDepth] at hfuel
    | succ f =>
      simp only [wfMachineValue, Bool.and_eq_true] at hwf
      simp only [mvDepth] at hfuel
      simp only [encodeMachineValue, List.cons_append, decodeMachineValueF]
      norm_num
      rw [iha hwf.1 f (encodeMachineValue b ++ rest) (by omega)]
      rw [exceptBind_ok]
      rw [ihb hwf.2 f rest (by omega)]
      rfl

theorem mvDepth_lt_encLength (v : MachineValue) :
    mvDepth v < (encodeMachineValue v).length := by
  induction v with
  | TwoHalves a b iha ihb =>
    simp only [mvDepth, encodeMachineValue, List.length_cons, List.length_append]
    omega
  | _ => simp [mvDepth, encodeMachineValue]

theorem decodeMachineValue_enc (v : MachineValue) (hwf : wfMachineValue v = true)
    (rest : List Nat) :
    decodeMachineValue (encodeMachineValue v ++ rest) = .ok (v, rest) := by
  apply decodeMachineValueF_enc v hwf
  have := mvDepth_lt_encLength v
  simp only [List.length_append]
  omega

theorem decodeMachineValue_length_lt {bs : List Nat} {v : MachineValue}
    {rest : List Nat} (h : decodeMachineValue bs = .ok (v, rest)) :
    rest.length < bs.length :=
  decodeMachineValueF_length_lt bs.length h

theorem decLE8_encU64 (n : Nat) (h : n < 2 ^ 64) (rest : List Nat) :
    decLE 8 (encU64 n ++ rest) = .ok (n, rest) := by
  have := decLE_encLE 8 n rest (by rw [pow256_8]; exact h)
  simpa [encU64] using this

theorem decSeq_enc {α : Type} {f : α → List Nat}
    {g : List Nat → Except DecodeErr (α × List Nat)} (xs : List α)
    (hlen : xs.length < 2 ^ 32)
    (h : ∀ x ∈ xs, ∀ r, g (f x ++ r) = .ok (x, r)) (rest : List Nat) :
    decSeq g (encSeq f xs ++ rest) = .ok (xs, rest) :=
  decSeq_encSeq xs rest hlen h

theorem decOpt_enc {α : Type} {f : α → List Nat}
    {g : List Nat → Except DecodeErr (α × List Nat)} (o : Option α)
    (h : ∀ x r, o = some x → g (f x ++ r) = .ok (x, r)) (rest : List Nat) :
    decOpt g (encOpt f o ++ rest) = .ok (o, rest) :=
  decOpt_encOpt o rest h

theorem decProd_enc {α β : Type} {f : α → List Nat} {g : β → List Nat}
    {df : List Nat → Except DecodeErr (α × List Nat)}
    {dg : List Nat → Except DecodeErr (β × List Nat)} (p : α × β)
    (hf : ∀ r, df (f p.1 ++ r) = .ok (p.1, r))
    (hg : ∀ r, dg (g p.2 ++ r) = .ok (p.2, r)) (rest : List Nat) :
    decProd df dg (encProd f g p ++ rest) = .ok (p, rest) := by
  obtain ⟨a, b⟩ := p
  simp only [encProd, decProd, List.append_assoc]
  rw [hf]
  rw [exceptBind_ok]
  rw [hg]
  rfl

theorem decodeRegisterIndex_enc (r : RegisterIndex) (h : wfU64 r.val = true)
    (rest : List Nat) :
    decodeRegisterIndex (encodeRegisterIndex r ++ rest) = .ok (r, rest) := by
  simp only [wfU64, decide_eq_true_eq] at h
  simp only [decodeRegisterIndex, encodeRegisterIndex, decLE8_encU64 r.val h,
    Except.map]

theorem decodeWasmAbstractValue_enc (v : WasmAbstractValue)
    (h : wfWasmAbstractValue v = true) (rest : List Nat) :
    decodeWasmAbstractValue (encodeWasmAbstractValue v ++ rest) = .ok (v, rest) := by
  cases v with
  | Runtime => simp [encodeWasmAbstractValue, decodeWasmAbstractValue]
  | Const u =>
    simp only [wfWasmAbstractValue, wfU64, decide_eq_true_eq] at h
    simp [encodeWasmAbstractValue, decodeWasmAbstractValue,
      decLE8_encU64 u h, Except.map]

theorem decodeSuspendOffset_enc (so : SuspendOffset)
    (h : wfSuspendOffset so = true) (rest : List Nat) :
    decodeSuspendOffset (encodeSuspendOffset so ++ rest) = .ok (so, rest) := by
  cases so with
  | Loop off =>
    simp only [wfSuspendOffset, wfU64, decide_eq_true_eq] at h
    simp [encodeSuspendOffset, decodeSuspendOffset, decLE8_encU64 off h, Except.map]
  | Call off =>
    simp only [wfSuspendOffset, wfU64, decide_eq_true_eq] at h
    simp [encodeSuspendOffset, decodeSuspendOffset, decLE8_encU64 off h, Except.map]
  | Trappable off =>
    simp only [wfSuspendOffset, wfU64, decide_eq_true_eq] at h
    simp [encodeSuspendOffset, decodeSuspendOffset, decLE8_encU64 off h, Except.map]

theorem decodeOffsetInfo_enc (oi : OffsetInfo) (h : wfOffsetInfo oi = true)
    (rest : List Nat) :
    decodeOffsetInfo (encodeOffsetInfo oi ++ rest) = .ok (oi, rest) := by
  obtain ⟨e, d, a⟩ := oi
  simp only [wfOffsetInfo, wfU64, Bool.and_eq_true, decide_eq_true_eq] at h
  obtain ⟨⟨he, hd⟩, ha⟩ := h
  simp only [encodeOffsetInfo, decodeOffsetInfo, List.append_assoc,
    decLE8_encU64 e he, decLE8_encU64 d hd, decLE8_encU64 a ha, exceptBind_ok]

theorem wfOpt_spec {α : Type} {f : α → Bool} {o : Option α}
    (h : wfOpt f o = true) : ∀ x, o = some x → f x = true := by
  intro x hx
  cases o with
  | none => cases hx
  | some y =>
    cases hx
    simpa [wfOpt] using h

theorem decodeMachineState_enc (s : MachineState) (h : wfMachineState s = true)
    (rest : List Nat) :
    decodeMachineState (encodeMachineState s ++ rest) = .ok (s, rest) := by
  obtain ⟨sv, rv, pf, ws, d, o⟩ := s
  simp only [wfMachineState, wfSeq, wfKV, wfU64, Bool.and_eq_true,
    List.all_eq_true, decide_eq_true_eq] at h
  obtain ⟨⟨⟨⟨⟨⟨hsv1, hsv2⟩, ⟨hrv1, hrv2⟩⟩, ⟨hpf1, hpf2⟩⟩, ⟨hws1, hws2⟩⟩, hd⟩, ho⟩ := h
  simp only [encodeMachineState, decodeMachineState, List.append_assoc,
    decSeq_enc (f := encodeMachineValue) sv hsv1
      (fun x hx r => decodeMachineValue_enc x (hsv2 x hx) r),
    decSeq_enc (f := encodeMachineValue) rv hrv1
      (fun x hx r => decodeMachineValue_enc x (hrv2 x hx) r),
    decSeq_enc (f := encProd encU64 encodeMachineValue) pf hpf1
      (fun x hx r => decProd_enc x
        (fun r2 => decLE8_encU64 x.1 (hpf2 x hx).1 r2)
        (fun r2 => decodeMachineValue_enc x.2 (hpf2 x hx).2 r2) r),
    decSeq_enc (f := encodeWasmAbstractValue) ws hws1
      (fun x hx r => decodeWasmAbstractValue_enc x (hws2 x hx) r),
    decLE8_encU64 d hd, decLE8_encU64 o ho, exceptBind_ok]

theorem decodeMachineStateDiff_enc (d : MachineStateDiff)
    (h : wfMachineStateDiff d = true) (rest : List Nat) :
    decodeMachineStateDiff (encodeMachineStateDiff d ++ rest) = .ok (d, rest) := by
  obtain ⟨l, sp, spop, rd, pfd, wsp, wspop, wd, wo⟩ := d
  simp only [wfMachineStateDiff, wfSeq, wfKV, wfU64, Bool.and_eq_true,
    List.all_eq_true, decide_eq_true_eq] at h
  obtain ⟨⟨⟨⟨⟨⟨⟨⟨hl, ⟨hsp1, hsp2⟩⟩, hspop⟩, ⟨hrd1, hrd2⟩⟩, ⟨hpfd1, hpfd2⟩⟩,
    ⟨hwsp1, hwsp2⟩⟩, hwspop⟩, hwd⟩, hwo⟩ := h
  simp only [encodeMachineStateDiff, decodeMachineStateDiff, List.append_assoc,
    decOpt_enc (f := encU64) l
      (fun x r hx => decLE8_encU64 x (by
        have := wfOpt_spec hl x hx
        simpa [wfU64] using this) r),
    decSeq_enc (f := encodeMachineValue) sp hsp1
      (fun x hx r => decodeMachineValue_enc x (hsp2 x hx) r),
    decLE8_encU64 spop hspop,
    decSeq_enc (f := encProd encodeRegisterIndex encodeMachineValue) rd hrd1
      (fun x hx r => decProd_enc x
        (fun r2 => decodeRegisterIndex_enc x.1 (by
          simp only [wfU64, decide_eq_true_eq]
          exact (hrd2 x hx).1) r2)
        (fun r2 => decodeMachineValue_enc x.2 (hrd2 x hx).2 r2) r),
    decSeq_enc (f := encProd encU64 (encOpt encodeMachineValue)) pfd hpfd1
      (fun x hx r => decProd_enc x
        (fun r2 => decLE8_encU64 x.1 (hpfd2 x hx).1 r2)
        (fun r2 => decOpt_enc x.2
          (fun y r3 hy => decodeMachineValue_enc y
            (wfOpt_spec (hpfd2 x hx).2 y hy) r3) r2) r),
    decSeq_enc (f := encodeWasmAbstractValue) wsp hwsp1
      (fun x hx r => decodeWasmAbstractValue_enc x (hwsp2 x hx) r),
    decLE8_encU64 wspop hwspop, decLE8_encU64 wd hwd, decLE8_encU64 wo hwo,
    exceptBind_ok]

theorem decodeFunctionStateMap_enc (m : FunctionStateMap)
    (h : wfFunctionStateMap m = true) (rest : List Nat) :
    decodeFunctionStateMap (encodeFunctionStateMap m ++ rest) = .ok (m, rest) := by
  obtain ⟨ini, fid, loc, sh, df, hdr, wo, lo, co, tro⟩ := m
  simp only [wfFunctionStateMap, Bool.and_eq_true] at h
  obtain ⟨⟨⟨⟨⟨⟨⟨⟨⟨hini, hfid⟩, hloc⟩, hsh⟩, hdf⟩, hhdr⟩, hwo⟩, hlo⟩, hco⟩, htro⟩ := h
  simp only [wfSeq, wfKV, wfU64, Bool.and_eq_true, List.all_eq_true,
    decide_eq_true_eq] at hfid hloc hsh hdf hwo hlo hco htro
  simp only [encodeFunctionStateMap, decodeFunctionStateMap, List.append_assoc,
    decodeMachineState_enc ini hini,
    decLE8_encU64 fid hfid,
    decSeq_enc (f := encodeWasmAbstractValue) loc hloc.1
      (fun x hx r => decodeWasmAbstractValue_enc x (hloc.2 x hx) r),
    decLE8_encU64 sh hsh,
    decSeq_enc (f := encodeMachineStateDiff) df hdf.1
      (fun x hx r => decodeMachineStateDiff_enc x (hdf.2 x hx) r),
    decOpt_enc (f := encodeSuspendOffset) hdr
      (fun x r hx => decodeSuspendOffset_enc x (wfOpt_spec hhdr x hx) r),
    decSeq_enc (f := encProd encU64 encodeSuspendOffset) wo hwo.1
      (fun x hx r => decProd_enc x
        (fun r2 => decLE8_encU64 x.1 (hwo.2 x hx).1 r2)
        (fun r2 => decodeSuspendOffset_enc x.2 (hwo.2 x hx).2 r2) r),
    decSeq_enc (f := encProd encU64 encodeOffsetInfo) lo hlo.1
      (fun x hx r => decProd_enc x
        (fun r2 => decLE8_encU64 x.1 (hlo.2 x hx).1 r2)
        (fun r2 => decodeOffsetInfo_enc x.2 (hlo.2 x hx).2 r2) r),
    decSeq_enc (f := encProd encU64 encodeOffsetInfo) co hco.1
      (fun x hx r => decProd_enc x
        (fun r2 => decLE8_encU64 x.1 (hco.2 x hx).1 r2)
        (fun r2 => decodeOffsetInfo_enc x.2 (hco.2 x hx).2 r2) r),
    decSeq_enc (f := encProd encU64 encodeOffsetInfo) tro htro.1
      (fun x hx r => decProd_enc x
        (fun r2 => decLE8_encU64 x.1 (htro.2 x hx).1 r2)
        (fun r2 => decodeOffsetInfo_enc x.2 (htro.2 x hx).2 r2) r),
    exceptBind_ok]

theorem decodeModuleStateMap_enc (m : ModuleStateMap)
    (h : wfModuleStateMap m = true) (rest : List Nat) :
    decodeModuleStateMap (encodeModuleStateMap m ++ rest) = .ok (m, rest) := by
  obtain ⟨lf, ts⟩ := m
  simp only [wfModuleStateMap, wfSeq, wfKV, wfU64, Bool.and_eq_true,
    List.all_eq_true, decide_eq_true_eq] at h
  obtain ⟨⟨hlf1, hlf2⟩, hts⟩ := h
  simp only [encodeModuleStateMap, decodeModuleStateMap, List.append_assoc,
    decSeq_enc (f := encProd encU64 encodeFunctionStateMap) lf hlf1
      (fun x hx r => decProd_enc x
        (fun r2 => decLE8_encU64 x.1 (hlf2 x hx).1 r2)
        (fun r2 => decodeFunctionStateMap_enc x.2 (hlf2 x hx).2 r2) r),
    decLE8_encU64 ts hts, exceptBind_ok]

theorem decodeExceptionCode_enc (c : ExceptionCode) (rest : List Nat) :
    decodeExceptionCode (encodeExceptionCode c ++ rest) = .ok (c, rest) := by
  cases c <;> simp [encodeExceptionCode, ExceptionCode.toByte, decodeExceptionCode]

/-- C1: the claim says every `ExceptionTable` serializes to a portable
length-prefixed `(offset, code)` pair list in ascending offset order, never a
copy of the hash table's internal bucket/control-byte memory layout. The
source's hand-written serializer does the opposite: evaluated at `exTable0`
(mapping `{4 ↦ MemoryOutOfBounds}`), its output opens with the raw table's
`bucket_mask` field rather than the pair count, and differs from the required
portable pair-list encoding. -/
theorem c1_exception_table_encoding_is_internal_layout_copy :
    (encodeExceptionTable exTable0).take 8 = encU64 exTable0.table.bucket_mask ∧
    (encodeExceptionTable exTable0).take 4 ≠ encU32 exTable0.offset_to_code.length ∧
    encodeExceptionTable exTable0 ≠
      specPortablePairListEncoding exTable0.offset_to_code := by
  decide

/-- C2: the claim says `decode(encode(x)) = x` for every structure, including
`ExceptionTable`. It fails there: encoding `exTable0` (the one-pair mapping
`{4 ↦ MemoryOutOfBounds}`) with the hand-written raw-layout serializer and
decoding with the derived pair-list deserializer yields a mapping whose
key/value content is not that of `exTable0` (the decoder reads `bucket_mask`'s
low bytes as the pair count and raw memory as the pairs). -/
theorem c2_exception_table_roundtrip_loses_content :
    (match decodeExceptionTable (encodeExceptionTable exTable0) with
      | .ok (ps, _) => contentEq ps exTable0.offset_to_code
      | .error _ => false) = false := by
  decide

/-- C3: reconstruction starts from the baseline `initial` and applies each
diff of the chain in baseline-to-selected order, with the spec's per-field
semantics. For the chain D1 (pushes one stack value) → D2 (overrides one
register, removes one previous-frame key) → D3 (pops the pushed value, with
absolute wasm fields equal to the baseline's), reconstructing at D3 equals the
baseline with only the register override and the key removal applied — in
particular the stack field is exactly the baseline's, so the stack depth is
the original depth. -/
theorem c3_reconstruction_applies_diff_chain_scenario (B : MachineState)
    (v rv2 : MachineValue) (r : RegisterIndex) (k o1 o2 fid sh : Nat)
    (locals : List WasmAbstractValue) (hdr : Option SuspendOffset)
    (wo : List (Nat × SuspendOffset)) (lo co tro : List (Nat × OffsetInfo)) :
    reconstruct
      { initial := B, local_function_id := fid, locals := locals,
        shadow_size := sh,
        diffs := [
          { last := none, stack_push := [v], stack_pop := 0, reg_diff := [],
            prev_frame_diff := [], wasm_stack_push := [], wasm_stack_pop := 0,
            wasm_stack_private_depth := B.wasm_stack_private_depth,
            wasm_inst_offset := o1 },
          { last := some 0, stack_push := [], stack_pop := 0,
            reg_diff := [(r, rv2)], prev_frame_diff := [(k, none)],
            wasm_stack_push := [], wasm_stack_pop := 0,
            wasm_stack_private_depth := B.wasm_stack_private_depth,
            wasm_inst_offset := o2 },
          { last := some 1, stack_push := [], stack_pop := 1, reg_diff := [],
            prev_frame_diff := [], wasm_stack_push := [], wasm_stack_pop := 0,
            wasm_stack_private_depth := B.wasm_stack_private_depth,
            wasm_inst_offset := B.wasm_inst_offset }],
        wasm_function_header_target_offset := hdr,
        wasm_offset_to_target_offset := wo, loop_offsets := lo,
        call_offsets := co, trappable_offsets := tro } 2 =
      .ok { B with register_values := B.register_values.set r.val rv2,
                   prev_frame := mapRemove k B.prev_frame } := by
  simp only [reconstruct, collectDiffChain, List.length_cons, List.length_nil]
  norm_num
  simp only [Except.map, List.foldl, List.getD, applyMachineStateDiff, popTail,
    mapRemove]
  simp [List.take_left, List.take_take]

/-- C4: the claim says two `ExceptionTable`s with identical final key/value
sets encode byte-for-byte identically regardless of how they were built. The
source's serializer reads the raw table memory, which depends on the hash seed
and on insertion history: `exTableA` and `exTableB` hold the same mapping
`{1 ↦ Unreachable, 2 ↦ MemoryOutOfBounds}` in two slot placements, and their
encodings differ. -/
theorem c4_exception_table_encoding_differs_for_equal_content :
    exTableA.offset_to_code = exTableB.offset_to_code ∧
    contentEq exTableA.offset_to_code exTableB.offset_to_code = true ∧
    encodeExceptionTable exTableA ≠ encodeExceptionTable exTableB := by
  decide

/-- C5: decoding a `MachineValue` whose discriminant byte is not one of the
defined tags 0..8 — in particular 9, one past the last defined variant — fails
with the unknown-variant error for every remaining input, never silently
producing `Undefined` or any other variant. -/
theorem c5_machine_value_decode_rejects_unknown_discriminant
    (b : Nat) (rest : List Nat) (h : 8 < b) :
    decodeMachineValue (b :: rest) = .error .unexpectedVariant := by
  simp only [decodeMachineValue, List.length_cons, decodeMachineValueF]
  repeat rw [if_neg (by omega)]

/-- C5 witness: the unknown-variant theorem applied at discriminant byte 9. -/
theorem c5_machine_value_decode_rejects_unknown_discriminant_witness :
    8 < 9 ∧ decodeMachineValue (9 :: [0]) = .error .unexpectedVariant :=
  ⟨by decide, c5_machine_value_decode_rejects_unknown_discriminant 9 [0] (by decide)⟩

/-- C6: the `CacheImage` container is encoded as its fields in declaration
order — code bytes, `function_pointers`, `function_offsets`,
`func_import_count` as a fixed-width `u64`, module state map, exception
table — and the hand-written deserializer reads the fields back in that same
order, each field self-delimiting (for the exception-table field, in the
derived pair-list format the deserializer expects), consuming exactly the
six encodings and leaving any trailing bytes untouched. -/
theorem c6_cache_image_fields_encoded_and_decoded_in_order :
    (∀ x : CacheImage,
      encodeCacheImage x =
        encBytes x.code ++ encSeq encU64 x.function_pointers ++
        encSeq encU64 x.function_offsets ++ encU64 x.func_import_count ++
        encodeModuleStateMap x.msm ++ encodeExceptionTable x.exception_table) ∧
    (∀ (code fp fo : List Nat) (n : Nat) (msm : ModuleStateMap)
        (et : List (Nat × ExceptionCode)) (rest : List Nat),
      code.length < 2 ^ 32 → wfSeq wfU64 fp = true → wfSeq wfU64 fo = true →
      n < 2 ^ 64 → wfModuleStateMap msm = true →
      wfSeq (fun p => wfU64 p.1) et = true →
      decodeCacheImage (encBytes code ++ encSeq encU64 fp ++ encSeq encU64 fo ++
          encU64 n ++ encodeModuleStateMap msm ++
          encSeq (encProd encU64 encodeExceptionCode) et ++ rest) =
        .ok (⟨code, fp, fo, n, msm, et⟩, rest, [.printTimings])) := by
  constructor
  · intro x
    rfl
  · intro code fp fo n msm et rest hcode hfp hfo hn hmsm het
    simp only [wfSeq, wfU64, Bool.and_eq_true, List.all_eq_true,
      decide_eq_true_eq] at hfp hfo het
    simp only [decodeCacheImage, decodeExceptionTable, List.append_assoc,
      decBytes_encBytes code _ hcode,
      decSeq_enc (f := encU64) fp hfp.1 (fun x hx r => decLE8_encU64 x (hfp.2 x hx) r),
      decSeq_enc (f := encU64) fo hfo.1 (fun x hx r => decLE8_encU64 x (hfo.2 x hx) r),
      decLE8_encU64 n hn,
      decodeModuleStateMap_enc msm hmsm,
      decSeq_enc (f := encProd encU64 encodeExceptionCode) et het.1
        (fun x hx r => decProd_enc x
          (fun r2 => decLE8_encU64 x.1 (het.2 x hx) r2)
          (fun r2 => decodeExceptionCode_enc x.2 r2) r),
      exceptBind_ok]

/-- C6 witness: the field-order theorem applied to a one-element cache image
with a trailing-byte-free buffer. -/
theorem c6_cache_image_fields_encoded_and_decoded_in_order_witness :
    decodeCacheImage (encBytes [7] ++ encSeq encU64 [1] ++ encSeq encU64 [2] ++
        encU64 3 ++ encodeModuleStateMap msm0 ++
        encSeq (encProd encU64 encodeExceptionCode) [(5, .Unreachable)] ++ []) =
      .ok (⟨[7], [1], [2], 3, msm0, [(5, .Unreachable)]⟩, [], [.printTimings]) :=
  c6_cache_image_fields_encoded_and_decoded_in_order.2 [7] [1] [2] 3 msm0
    [(5, .Unreachable)] [] (by decide) (by decide) (by decide) (by decide)
    (by decide) (by decide)

/-- C7: the claim says decoding validates each diff's `last` back-reference to
be absent or strictly below the diff's own index, rejecting a self-reference
as a corruption error. The derived decoding performs no such validation:
`fsmSelfRef`'s diff at index 2 has `last = Some 2`, and decoding its encoding
succeeds and returns the self-referencing chain unchanged instead of an
error. -/
theorem c7_decode_accepts_self_referencing_diff_chain :
    (fsmSelfRef.diffs[2]?).map (fun d => d.last) = some (some 2) ∧
    decodeFunctionStateMap (encodeFunctionStateMap fsmSelfRef) =
      .ok (fsmSelfRef, []) :=
  ⟨rfl, rfl⟩

/-- C8: the claim says decode has no observable effect beyond reading the
input and producing the output. `CacheImage::deserialize` prints a timing
line to stdout on every successful decode: decoding the well-formed buffer
`c8buf` returns the decoded image together with the `printTimings` stdout
event — a nonempty effect trace. -/
theorem c8_cache_image_decode_emits_stdout_print :
    decodeCacheImage c8buf = .ok (c8img, [], [Effect.printTimings]) ∧
    ([Effect.printTimings] : List Effect) ≠ [] :=
  ⟨rfl, by simp⟩

/-- C9: `MachineValue` deserialization is total on every finite buffer — it
returns a value or an error — and every successful decode strictly consumes
input (at least the discriminant byte), at any `TwoHalves` nesting depth;
this is the measure by which the recursion terminates. -/
theorem c9_machine_value_decode_total_and_consuming :
    (∀ bs : List Nat, (∃ v rest, decodeMachineValue bs = .ok (v, rest)) ∨
      (∃ e, decodeMachineValue bs = .error e)) ∧
    (∀ (bs : List Nat) (v : MachineValue) (rest : List Nat),
      decodeMachineValue bs = .ok (v, rest) → rest.length < bs.length) := by
  constructor
  · intro bs
    cases h : decodeMachineValue bs with
    | ok p =>
      obtain ⟨x, r⟩ := p
      exact Or.inl ⟨x, r, rfl⟩
    | error e => exact Or.inr ⟨e, rfl⟩
  · intro bs v rest h
    exact decodeMachineValue_length_lt h

/-- C9 witness: totality and strict consumption evaluated on the one-byte
buffer `[0]`, which decodes to `Undefined` and consumes its single byte. -/
theorem c9_machine_value_decode_total_and_consuming_witness :
    decodeMachineValue [0] = .ok (.Undefined, []) ∧
      ([] : List Nat).length < [0].length :=
  ⟨rfl, c9_machine_value_decode_total_and_consuming.2 [0] .Undefined [] rfl⟩

/-- C10: each `ExceptionCode` encodes to exactly one byte equal to its
declared discriminant — `Unreachable = 0` through
`MisalignedAtomicAccess = 5` — and decoding each byte 0..5 returns the
corresponding variant, so the persisted tags are stable. -/
theorem c10_exception_code_discriminants_stable :
    (encodeExceptionCode .Unreachable = [0] ∧
      decodeExceptionCode [0] = .ok (.Unreachable, [])) ∧
    (encodeExceptionCode .IncorrectCallIndirectSignature = [1] ∧
      decodeExceptionCode [1] = .ok (.IncorrectCallIndirectSignature, [])) ∧
    (encodeExceptionCode .MemoryOutOfBounds = [2] ∧
      decodeExceptionCode [2] = .ok (.MemoryOutOfBounds, [])) ∧
    (encodeExceptionCode .CallIndirectOOB = [3] ∧
      decodeExceptionCode [3] = .ok (.CallIndirectOOB, [])) ∧
    (encodeExceptionCode .IllegalArithmetic = [4] ∧
      decodeExceptionCode [4] = .ok (.IllegalArithmetic, [])) ∧
    (encodeExceptionCode .MisalignedAtomicAccess = [5] ∧
      decodeExceptionCode [5] = .ok (.MisalignedAtomicAccess, [])) :=
  ⟨⟨rfl, rfl⟩, ⟨rfl, rfl⟩, ⟨rfl, rfl⟩, ⟨rfl, rfl⟩, ⟨rfl, rfl⟩, ⟨rfl, rfl⟩⟩
